import Mathlib

set_option maxRecDepth 100000

/-!
Verification development for the direct DNS manager of this repository
(`net/dns` direct-file strategy, exercised by `testDirect`, `TestReadResolve`,
`boundResolvConfFS` and `brokenRemoveFS` in the sources) and for the legacy
Windows profile migration helpers (`loadLegacyPrefs`, `completeMigration`).

Text contents are modelled as lists of characters (`Str`), filesystem state as
the contents of the two well-known paths the manager touches, and the
filesystem doubles of the test suite as behaviour records saying which
primitive operations fail.
-/

/-- Character-list representation of file contents and path names. -/
abbrev Str := List Char

/-- Characters of a string literal. -/
def strOf (s : String) : Str := s.data

/-- Whitespace recognised by trimming, as in `strings.TrimSpace` for ASCII. -/
def isSpaceChar (c : Char) : Bool := c = ' ' || c = '\t' || c = '\n' || c = '\r'

/-- A character allowed inside a value token: not whitespace, not the comment
marker. -/
def isTokChar (c : Char) : Bool := !isSpaceChar c && c != '#'

/-- A value token is non-empty and made of token characters only. -/
def validToken (s : Str) : Bool := !s.isEmpty && s.all isTokChar

/-- Drop leading whitespace. -/
def trimLeft (s : Str) : Str := s.dropWhile isSpaceChar

/-- Drop leading and trailing whitespace, as `strings.TrimSpace`. -/
def trim (s : Str) : Str := ((s.dropWhile isSpaceChar).reverse.dropWhile isSpaceChar).reverse

/-- Worker for splitting on a separator character: first field plus the
remaining fields. -/
def splitAux (sep : Char) : Str → Str × List Str
  | [] => ([], [])
  | c :: cs =>
    let r := splitAux sep cs
    if c = sep then ([], r.1 :: r.2) else (c :: r.1, r.2)

/-- Split on a separator character, keeping empty fields, as `strings.Split`. -/
def splitOnChar (sep : Char) (s : Str) : List Str := (splitAux sep s).1 :: (splitAux sep s).2

/-- Boolean string-prefix test, as `strings.HasPrefix`. -/
def beginsWith : Str → Str → Bool
  | [], _ => true
  | _ :: _, [] => false
  | p :: ps, c :: cs => p == c && beginsWith ps cs

/-- Cut a line at its first `#`: the kept part before any comment. -/
def stripComment (s : Str) : Str := s.takeWhile (fun c => c != '#')

/-- Boolean substring test, as `strings.Contains`. -/
def containsSeq (pat : Str) : Str → Bool
  | [] => beginsWith pat []
  | c :: cs => beginsWith pat (c :: cs) || containsSeq pat cs

/-- The DNS configuration value (`OSConfig` of the sources): ordered
nameservers, search domains in canonical trailing-dot form, and match domains
(accepted but never persisted). Addresses and domains are kept as their
canonical text, validation of their internal syntax being out of scope. -/
structure OSConfig where
  nameservers : List Str := []
  searchDomains : List Str := []
  matchDomains : List Str := []
deriving DecidableEq, Repr

/-- Modelled from the spec: the zero/empty configuration test used by `Apply`
("If `config` is the zero/empty value"): all three sequences empty. -/
def OSConfig.isZero (c : OSConfig) : Bool :=
  c.nameservers.isEmpty && c.searchDomains.isEmpty && c.matchDomains.isEmpty

/-- Modelled from the spec: address validation is out of scope ("treated as
already-correct inputs/outputs"), so parsing an address accepts exactly a
well-formed value token and returns its canonical text. -/
def parseAddr (s : Str) : Option Str := if validToken s then some s else none

/-- Modelled from the spec: normalization of a search domain to canonical
(trailing-separator) form; fails on an empty or malformed token. -/
def toFQDN (s : Str) : Option Str :=
  if validToken s then some (if s.getLast? = some '.' then s else s ++ ['.']) else none

/-- A canonical stored FQDN as produced by normalization: ends in the label
separator, and dropping that separator leaves a well-formed token that does not
itself end in a separator. -/
def validFQDN (d : Str) : Bool :=
  d.getLast? = some '.' && validToken d.dropLast && !(d.dropLast.getLast? = some '.')

def nameserverKw : Str := strOf "nameserver"

def searchKw : Str := strOf "search"

/-- Modelled from the spec (§4.3, the `readResolv` parser not being among the
provided sources): parse one line into the accumulated config. Comments from
the first `#` are discarded, the line is trimmed; blank results are skipped; a
`nameserver` or `search` keyword must be followed by whitespace before its
value(s), otherwise the line is a parse error; other lines are ignored. -/
def parseLine (acc : OSConfig) (line : Str) : Except Str OSConfig :=
  let l := trim (stripComment line)
  if l.isEmpty then .ok acc
  else if beginsWith nameserverKw l then
    let rest := l.drop nameserverKw.length
    let value := trim rest
    if value.length = rest.length then .error (strOf "missing space after nameserver")
    else match parseAddr value with
      | some a => .ok { acc with nameservers := acc.nameservers ++ [a] }
      | none => .error (strOf "invalid address")
  else if beginsWith searchKw l then
    let rest := l.drop searchKw.length
    let value := trim rest
    if value.length = rest.length then .error (strOf "missing space after search")
    else match (splitOnChar ' ' value).mapM toFQDN with
      | some ds => .ok { acc with searchDomains := acc.searchDomains ++ ds }
      | none => .error (strOf "invalid search domain")
  else .ok acc

/-- Parse lines in order, stopping at the first erroring line. -/
def parseLines (acc : OSConfig) : List Str → Except Str OSConfig
  | [] => .ok acc
  | l :: ls =>
    match parseLine acc l with
    | .ok acc2 => parseLines acc2 ls
    | .error e => .error e

/-- Modelled from the spec: `readResolv`, the whole-text parser — split into
lines and fold `parseLine` over them starting from the empty config. -/
def readResolv (s : Str) : Except Str OSConfig := parseLines {} (splitOnChar '\n' s)

/-- True exactly when parsing returned an error. -/
def isErr (r : Except Str OSConfig) : Bool :=
  match r with
  | .error _ => true
  | .ok _ => false

def headerLine1 : Str := strOf "# resolv.conf(5) file generated by tailscale"

def headerLine2 : Str := strOf "# For more info, see https://tailscale.com/s/resolvconf-overwrite"

def headerLine3 : Str := strOf "# DO NOT EDIT THIS FILE BY HAND -- CHANGES WILL BE OVERWRITTEN"

/-- Rendered display form of a stored search domain: trailing separator
stripped. -/
def withoutTrailingDot (s : Str) : Str := if s.getLast? = some '.' then s.dropLast else s

/-- One rendered nameserver line. -/
def nsLine (a : Str) : Str := strOf "nameserver " ++ a

/-- The rendered search line: the keyword followed by one space-prefixed
display-form domain per entry. -/
def searchLine (ds : List Str) : Str :=
  searchKw ++ (ds.map (fun d => ' ' :: withoutTrailingDot d)).flatten

/-- Modelled from the spec (§4.2, the renderer not being among the provided
sources): the lines of the rendered config — fixed three-line header, a blank
line, one `nameserver` line per entry in order, and a `search` line when any
search domain is present. `matchDomains` contributes nothing. -/
def renderLines (cfg : OSConfig) : List Str :=
  [headerLine1, headerLine2, headerLine3, []]
    ++ cfg.nameservers.map nsLine
    ++ (if cfg.searchDomains.isEmpty then [] else [searchLine cfg.searchDomains])

/-- The rendered text: every line followed by a newline (so the output ends in
a trailing newline). -/
def renderText (cfg : OSConfig) : Str :=
  ((renderLines cfg).map (fun l => l ++ ['\n'])).flatten

deriving instance DecidableEq for Except

/-- The managed target path (`resolvPath` in `testDirect`). -/
def resolvPath : Str := strOf "/etc/resolv.conf"

/-- The backup path (`backupPath` in `testDirect`). -/
def backupPath : Str := strOf "/etc/resolv.pre-tailscale-backup.conf"

/-- Filesystem state as seen through the manager's port: the contents (or
absence) of the target file and of the backup file, the only paths the
manager touches. -/
structure FSState where
  target : Option Str
  backup : Option Str
deriving DecidableEq, Repr

/-- A filesystem double: which primitive operations fail, per path.
`directFS` has nothing failing; the test doubles of the sources override
`Rename`/`Remove` for particular paths. -/
structure FSBehavior where
  renameFails : Str → Str → Bool
  removeFails : Str → Bool
  writeFails : Str → Bool

/-- The unrestricted filesystem (`directFS` of the sources): every primitive
succeeds. -/
def directFS : FSBehavior :=
  { renameFails := fun _ _ => false, removeFails := fun _ => false, writeFails := fun _ => false }

/-- `boundResolvConfFS` of the sources: `Rename` fails whenever the old or the
new path is the target, `Remove` fails for the target path exactly. -/
def boundResolvConfFS : FSBehavior :=
  { renameFails := fun old new => old = resolvPath || new = resolvPath
    removeFails := fun name => name = resolvPath
    writeFails := fun _ => false }

/-- `brokenRemoveFS` of the sources: `Rename` always fails, `Remove` fails for
every path containing the substring `/etc/resolv.conf`. -/
def brokenRemoveFS : FSBehavior :=
  { renameFails := fun _ _ => true
    removeFails := fun name => containsSeq resolvPath name
    writeFails := fun _ => false }

/-- A double whose `Rename` always fails but whose other primitives all
succeed. -/
def allRenameFailFS : FSBehavior :=
  { renameFails := fun _ _ => true, removeFails := fun _ => false, writeFails := fun _ => false }

/-- `ReadFile` on the two managed paths. -/
def fsRead (s : FSState) (p : Str) : Option Str :=
  if p = resolvPath then s.target else if p = backupPath then s.backup else none

/-- Set or clear the contents at a managed path. -/
def fsSet (s : FSState) (p : Str) (v : Option Str) : FSState :=
  if p = resolvPath then { s with target := v }
  else if p = backupPath then { s with backup := v }
  else s

/-- `WriteFile`: fails (leaving the state unchanged) when the double says so,
otherwise truncates/overwrites the path with the new contents. -/
def fsWrite (b : FSBehavior) (s : FSState) (p : Str) (c : Str) : FSState × Bool :=
  if b.writeFails p then (s, false) else (fsSet s p (some c), true)

/-- `Remove`: fails when the double says so, otherwise clears the path. -/
def fsRemove (b : FSBehavior) (s : FSState) (p : Str) : FSState × Bool :=
  if b.removeFails p then (s, false) else (fsSet s p none, true)

/-- `Rename`: fails when the double says so or the source is absent, otherwise
moves the contents from the old path to the new path. -/
def fsRename (b : FSBehavior) (s : FSState) (old new : Str) : FSState × Bool :=
  if b.renameFails old new then (s, false)
  else match fsRead s old with
    | none => (s, false)
    | some c => (fsSet (fsSet s old none) new (some c), true)

/-- Modelled from the spec (§4.2/§3, the manager implementation not being
among the provided sources): the manager recognises its own content by the
fixed machine-generated header, so that restore removes only
manager-introduced content. -/
def ownedByManager (c : Str) : Bool := beginsWith headerLine1 c

/-- Modelled from the spec (§4.1 Backup-Create, implementation not among the
provided sources): if the target is absent, no backup and no error; otherwise
prefer an atomic rename of target to backup, and on rename failure fall back
to read-target / write-backup / best-effort remove-target, a remove failure
being tolerated. -/
def backupCreate (b : FSBehavior) (s : FSState) : FSState × Bool :=
  match fsRead s resolvPath with
  | none => (s, true)
  | some content =>
    let r := fsRename b s resolvPath backupPath
    if r.2 then (r.1, true)
    else
      let w := fsWrite b s backupPath content
      if w.2 then ((fsRemove b w.1 resolvPath).1, true) else (w.1, false)

/-- Modelled from the spec (§4.1 Restore-or-Remove, implementation not among
the provided sources): with a backup present, prefer an atomic rename of
backup to target, falling back to read-backup / write-target / best-effort
remove-backup; with no backup, best-effort removal of manager-introduced
target content only (§3: after restore no manager-introduced content remains),
ignoring absence as success. -/
def restoreOrRemove (b : FSBehavior) (s : FSState) : FSState × Bool :=
  match fsRead s backupPath with
  | some content =>
    let r := fsRename b s backupPath resolvPath
    if r.2 then (r.1, true)
    else
      let w := fsWrite b s resolvPath content
      if w.2 then ((fsRemove b w.1 backupPath).1, true) else (w.1, false)
  | none =>
    match fsRead s resolvPath with
    | none => (s, true)
    | some content =>
      if ownedByManager content then ((fsRemove b s resolvPath).1, true) else (s, true)

/-- Modelled from the spec (§4.1 Apply / `SetDNS`, implementation not among
the provided sources): an empty config relinquishes control via
Restore-or-Remove; otherwise create the backup if none exists yet (its
internal failures not aborting the takeover) and write the rendered config to
the target. -/
def setDNS (b : FSBehavior) (cfg : OSConfig) (s : FSState) : FSState × Bool :=
  if cfg.isZero then restoreOrRemove b s
  else
    let s1 := if fsRead s backupPath = none then (backupCreate b s).1 else s
    fsWrite b s1 resolvPath (renderText cfg)

/-- Modelled from the spec (§4.1 `Close`): always attempt Restore-or-Remove,
exactly as `Apply` with an empty config. -/
def closeDirect (b : FSBehavior) (s : FSState) : FSState × Bool := restoreOrRemove b s

/-- The initial target contents of the scenario in `testDirect` as the spec
states it. -/
def origContents : Str := strOf "nameserver 9.9.9.9"

/-- The config applied in the `testDirect` scenario. -/
def scenarioCfg : OSConfig :=
  { nameservers := [strOf "8.8.8.8", strOf "8.8.4.4"]
    searchDomains := [strOf "ts.net.", strOf "ts-dns.test."]
    matchDomains := [strOf "ignored."] }

/-- The exact contents `testDirect` expects in the target after the scenario
apply. -/
def wantContents : Str :=
  ([headerLine1, headerLine2, headerLine3, [],
    strOf "nameserver 8.8.8.8", strOf "nameserver 8.8.4.4",
    strOf "search ts.net ts-dns.test"].map (fun l => l ++ ['\n'])).flatten

/-- The in-memory preference structure (`ipn.PrefsView`), kept abstract: only
its zero value and identity matter to the embedded code. -/
structure Prefs where
  raw : Str
deriving DecidableEq, Repr

/-- The zero `ipn.PrefsView{}` value. -/
def emptyPrefs : Prefs := ⟨[]⟩

/-- Outcome of `os.Stat` on the migration sentinel: the file exists, the stat
failed with a not-exist error, or it failed with some other error. -/
inductive StatResult where
  | found
  | missing
  | failure (e : Str)
deriving DecidableEq, Repr

/-- The error value returned by `loadLegacyPrefs`: the distinct
`errAlreadyMigrated` sentinel error, or an ordinary propagated error. -/
inductive LoadErr where
  | alreadyMigrated
  | io (e : Str)
deriving DecidableEq, Repr

/-- The environment `loadLegacyPrefs` runs against: the outcome of
`legacyPrefsDir` (user lookup and home-directory check), of `os.Stat` on the
migration sentinel, of `ipn.LoadPrefs` on the legacy prefs path, and the
policy-driven field overrides applied before returning, all abstracted as
outcomes since they are external to the embedded function. -/
structure LegacyEnv where
  dirResult : Except Str Str
  statSentinel : StatResult
  loadPrefsResult : Except Str Prefs
  applyPolicy : Prefs → Prefs

/-- `filepath.Join(userLegacyPrefsDir, legacyPrefsMigrationSentinelFile+legacyPrefsExt)`. -/
def migrationSentinelPath (dir : Str) : Str := dir ++ strOf "/_migrated-to-profiles.conf"

/-- `(pm *profileManager) loadLegacyPrefs`, embedded from the source: resolve
the legacy prefs directory; if `os.Stat` finds the migration sentinel, return
empty path and prefs with `errAlreadyMigrated`; propagate a stat error other
than not-exist as-is; otherwise load the legacy prefs, apply the policy
overrides, and return the sentinel path with the migrated prefs. -/
def loadLegacyPrefs (env : LegacyEnv) : Str × Prefs × Option LoadErr :=
  match env.dirResult with
  | .error e => ([], emptyPrefs, some (.io e))
  | .ok dir =>
    match env.statSentinel with
    | .found => ([], emptyPrefs, some .alreadyMigrated)
    | .failure e => ([], emptyPrefs, some (.io e))
    | .missing =>
      match env.loadPrefsResult with
      | .error e => ([], emptyPrefs, some (.io e))
      | .ok p => (migrationSentinelPath dir, env.applyPolicy p, none)

/-- `atomicfile.WriteFile` on the sentinel path, abstracted over the sentinel
file's presence: on success the sentinel exists afterwards and no error is
returned; on failure the state is unchanged and an error is returned. -/
def atomicWriteFile (fails : Bool) (present : Bool) : Bool × Option Str :=
  if fails then (present, some (strOf "write failed")) else (true, none)

/-- `(pm *profileManager) completeMigration`, embedded from the source: write
the empty sentinel file and discard the write's error — the function returns
no error value, only the resulting sentinel state. -/
def completeMigration (fails : Bool) (present : Bool) : Bool :=
  (atomicWriteFile fails present).1

/-- What `os.Stat` on the sentinel reports given whether the sentinel file is
present. -/
def statOf (present : Bool) : StatResult := if present then .found else .missing

lemma backupPath_ne_resolvPath : backupPath ≠ resolvPath := by decide

lemma fsRead_resolv (s : FSState) : fsRead s resolvPath = s.target := by
  unfold fsRead
  rw [if_pos rfl]

lemma fsRead_backup (s : FSState) : fsRead s backupPath = s.backup := by
  unfold fsRead
  rw [if_neg backupPath_ne_resolvPath, if_pos rfl]

lemma fsSet_resolv (s : FSState) (v : Option Str) : fsSet s resolvPath v = { s with target := v } := by
  unfold fsSet
  rw [if_pos rfl]

lemma fsSet_backup (s : FSState) (v : Option Str) : fsSet s backupPath v = { s with backup := v } := by
  unfold fsSet
  rw [if_neg backupPath_ne_resolvPath, if_pos rfl]

/-- `Backup-Create` on a state whose target exists, with a double whose backup
write succeeds: it reports success and either moved the target contents to the
backup, or (when both the rename and the target remove failed) copied them,
leaving the target in place. -/
lemma backupCreate_run (b : FSBehavior) (s : FSState) (orig : Str)
    (hw : b.writeFails backupPath = false) (ht : s.target = some orig) :
    backupCreate b s = (⟨none, some orig⟩, true) ∨
      backupCreate b s = (⟨some orig, some orig⟩, true) := by
  obtain ⟨t, bk⟩ := s
  simp only at ht
  subst ht
  cases hr : b.renameFails resolvPath backupPath with
  | false =>
    left
    simp [backupCreate, fsRename, fsRead_resolv, hr, fsSet_resolv, fsSet_backup]
  | true =>
    cases hrm : b.removeFails resolvPath with
    | false =>
      left
      simp [backupCreate, fsRename, fsRead_resolv, hr, fsWrite, hw, fsRemove, hrm,
        fsSet_resolv, fsSet_backup]
    | true =>
      right
      simp [backupCreate, fsRename, fsRead_resolv, hr, fsWrite, hw, fsRemove, hrm,
        fsSet_resolv, fsSet_backup]

/-- `Restore-or-Remove` on a state with a backup, when the target write and
the backup remove succeed: the target gets the backup contents back, the
backup disappears, and success is reported. -/
lemma restore_backup_run (b : FSBehavior) (t : Option Str) (c : Str)
    (hw : b.writeFails resolvPath = false) (hrm : b.removeFails backupPath = false) :
    restoreOrRemove b ⟨t, some c⟩ = (⟨some c, none⟩, true) := by
  cases hr : b.renameFails backupPath resolvPath with
  | false =>
    simp [restoreOrRemove, fsRead_backup, fsRename, hr, fsRead_resolv,
      fsSet_resolv, fsSet_backup]
  | true =>
    simp [restoreOrRemove, fsRead_backup, fsRename, hr, fsWrite, hw, fsRemove, hrm,
      fsSet_resolv, fsSet_backup]

/-- `Restore-or-Remove` on a state with a backup, when the rename and the
backup remove fail but the target write succeeds: the target gets the backup
contents back, the stale backup lingers, and success is still reported. -/
lemma restore_backup_run_removeFail (b : FSBehavior) (t : Option Str) (c : Str)
    (hw : b.writeFails resolvPath = false) (hrn : b.renameFails backupPath resolvPath = true)
    (hrm : b.removeFails backupPath = true) :
    restoreOrRemove b ⟨t, some c⟩ = (⟨some c, some c⟩, true) := by
  simp [restoreOrRemove, fsRead_backup, fsRename, hrn, fsWrite, hw, fsRemove, hrm,
    fsSet_resolv, fsSet_backup]

/-- `Restore-or-Remove` is a no-op success on a state with no backup whose
target, if present, is not manager-introduced content. -/
lemma restore_noop (b : FSBehavior) (s : FSState) (hb : s.backup = none)
    (ht : ∀ c, s.target = some c → ownedByManager c = false) :
    restoreOrRemove b s = (s, true) := by
  obtain ⟨t, bk⟩ := s
  simp only at hb
  subst hb
  cases t with
  | none => simp [restoreOrRemove, fsRead_backup, fsRead_resolv]
  | some c =>
    have hc : ownedByManager c = false := ht c rfl
    simp [restoreOrRemove, fsRead_backup, fsRead_resolv, hc]

/-- `Restore-or-Remove` is idempotent on every state whose backup, if present,
does not hold manager-introduced content (as in any takeover episode, where
the backup snapshots the foreign pre-takeover target): a second call returns
exactly the first call's state and outcome. -/
lemma restoreOrRemove_idem (b : FSBehavior) (s : FSState)
    (hback : ∀ c, s.backup = some c → ownedByManager c = false) :
    restoreOrRemove b (restoreOrRemove b s).1 = restoreOrRemove b s := by
  obtain ⟨t, bk⟩ := s
  cases bk with
  | none =>
    cases t with
    | none => simp [restoreOrRemove, fsRead_backup, fsRead_resolv]
    | some c =>
      cases ho : ownedByManager c with
      | false => simp [restoreOrRemove, fsRead_backup, fsRead_resolv, ho]
      | true =>
        cases hrm : b.removeFails resolvPath with
        | true => simp [restoreOrRemove, fsRead_backup, fsRead_resolv, ho, fsRemove, hrm]
        | false =>
          simp [restoreOrRemove, fsRead_backup, fsRead_resolv, ho, fsRemove, hrm, fsSet_resolv]
  | some c =>
    have hc : ownedByManager c = false := hback c rfl
    cases hr : b.renameFails backupPath resolvPath with
    | false =>
      simp [restoreOrRemove, fsRead_backup, fsRead_resolv, fsRename, hr,
        fsSet_backup, fsSet_resolv, hc]
    | true =>
      cases hw : b.writeFails resolvPath with
      | true => simp [restoreOrRemove, fsRead_backup, fsRename, hr, fsWrite, hw]
      | false =>
        cases hrm : b.removeFails backupPath with
        | false =>
          simp [restoreOrRemove, fsRead_backup, fsRead_resolv, fsRename, hr, fsWrite, hw,
            fsRemove, hrm, fsSet_resolv, fsSet_backup, hc]
        | true =>
          simp [restoreOrRemove, fsRead_backup, fsRead_resolv, fsRename, hr, fsWrite, hw,
            fsRemove, hrm, fsSet_resolv, fsSet_backup, hc]

lemma beginsWith_append_self (p r : Str) : beginsWith p (p ++ r) = true := by
  induction p with
  | nil => rfl
  | cons c cs ih => simp [beginsWith, ih]

/-- Every rendered config is recognised as manager-introduced content: it
starts with the fixed machine-generated header. -/
lemma owned_renderText (cfg : OSConfig) : ownedByManager (renderText cfg) = true := by
  have h : renderText cfg =
      headerLine1 ++ ('\n' ::
        (((([headerLine2, headerLine3, []] : List Str)
            ++ cfg.nameservers.map nsLine
            ++ (if cfg.searchDomains.isEmpty then [] else [searchLine cfg.searchDomains])).map
          (fun l => l ++ ['\n'])).flatten)) := by
    simp [renderText, renderLines]
  rw [ownedByManager, h, beginsWith_append_self]

/-- C1: For a target file initially holding `nameserver 9.9.9.9`, calling
Apply/SetDNS with the config {nameservers: [8.8.8.8, 8.8.4.4], searchDomains:
[ts.net., ts-dns.test.], matchDomains: [ignored.]} succeeds and leaves the
target file equal to the fixed three-line header, a blank line, `nameserver
8.8.8.8`, `nameserver 8.8.4.4`, `search ts.net ts-dns.test` (with trailing
newline, search domains rendered without trailing dot, matchDomains
contributing nothing), and leaves the backup path holding exactly the original
pre-takeover bytes — for every filesystem double whose writes succeed. -/
theorem claim1_apply_scenario (b : FSBehavior) (hw : ∀ p, b.writeFails p = false) :
    setDNS b scenarioCfg ⟨some origContents, none⟩ =
      (⟨some wantContents, some origContents⟩, true) := by
  have hz : scenarioCfg.isZero = false := by decide
  have hrt : renderText scenarioCfg = wantContents := by decide
  rcases backupCreate_run b ⟨some origContents, none⟩ origContents (hw backupPath) rfl with h | h <;>
    simp [setDNS, hz, fsRead_backup, h, fsWrite, hw resolvPath, fsSet_resolv, hrt]

theorem claim1_witness :
    setDNS directFS scenarioCfg ⟨some origContents, none⟩ =
      (⟨some wantContents, some origContents⟩, true) :=
  claim1_apply_scenario directFS (fun _ => rfl)

/-- C2: After a takeover episode (backup in place holding the pre-takeover
contents), Apply with the zero/empty config succeeds, restores the target file
to exactly the pre-takeover contents, and leaves no backup file — for every
double whose writes succeed and whose backup-path remove succeeds (as in all
three doubles of the test suite). -/
theorem claim2_empty_apply_restores (b : FSBehavior) (s : FSState) (c : Str)
    (hb : s.backup = some c) (hw : ∀ p, b.writeFails p = false)
    (hrm : b.removeFails backupPath = false) :
    setDNS b {} s = (⟨some c, none⟩, true) := by
  obtain ⟨t, bk⟩ := s
  simp only at hb
  subst hb
  have he : setDNS b {} (⟨t, some c⟩ : FSState) = restoreOrRemove b ⟨t, some c⟩ := rfl
  rw [he]
  exact restore_backup_run b t c (hw resolvPath) hrm

theorem claim2_witness :
    setDNS directFS {} ⟨some wantContents, some origContents⟩ =
      (⟨some origContents, none⟩, true) :=
  claim2_empty_apply_restores directFS ⟨some wantContents, some origContents⟩ origContents
    rfl (fun _ => rfl) rfl

/-- C3: `Close` performs exactly the Restore-or-Remove cleanup of Apply with
the empty config; the cleanup is idempotent (a second Restore-or-Remove
returns the first one's state and outcome unchanged) whenever the backup, if
present, does not hold manager-generated content — as in any takeover episode;
and with no backup and a non-manager-generated (original) target, `Close`
succeeds changing nothing. -/
theorem claim3_close_cleanup (b : FSBehavior) (s : FSState)
    (hback : ∀ c, s.backup = some c → ownedByManager c = false) :
    closeDirect b s = setDNS b {} s ∧
    restoreOrRemove b (restoreOrRemove b s).1 = restoreOrRemove b s ∧
    (s.backup = none → (∀ c, s.target = some c → ownedByManager c = false) →
      closeDirect b s = (s, true)) := by
  exact ⟨rfl, restoreOrRemove_idem b s hback, fun hb ht => restore_noop b s hb ht⟩

theorem claim3_witness :
    closeDirect directFS ⟨some origContents, none⟩ =
        setDNS directFS {} ⟨some origContents, none⟩ ∧
      restoreOrRemove directFS (restoreOrRemove directFS ⟨some origContents, none⟩).1 =
        restoreOrRemove directFS ⟨some origContents, none⟩ ∧
      closeDirect directFS ⟨some origContents, none⟩ = (⟨some origContents, none⟩, true) := by
  obtain ⟨h1, h2, h3⟩ :=
    claim3_close_cleanup directFS ⟨some origContents, none⟩ (fun c h => nomatch h)
  exact ⟨h1, h2, h3 rfl (fun c h => by cases h; decide)⟩

/-- C4: For every filesystem double whose `Rename` always fails but whose
`Read`/`Write`/`Remove` succeed, a full Apply-then-Close cycle (non-empty
Apply followed by Close) completes without error and produces the same final
filesystem state as the cycle run over the unrestricted `directFS`, where
`Rename` succeeds. -/
theorem claim4_fallback_equivalence (b : FSBehavior) (cfg : OSConfig) (s : FSState)
    (hrn : ∀ o n, b.renameFails o n = true)
    (hrm : ∀ p, b.removeFails p = false)
    (hw : ∀ p, b.writeFails p = false)
    (hcfg : cfg.isZero = false) :
    (setDNS b cfg s).2 = true ∧
    (closeDirect b (setDNS b cfg s).1).2 = true ∧
    (setDNS directFS cfg s).2 = true ∧
    (closeDirect directFS (setDNS directFS cfg s).1).2 = true ∧
    (closeDirect b (setDNS b cfg s).1).1 = (closeDirect directFS (setDNS directFS cfg s).1).1 := by
  obtain ⟨t, bk⟩ := s
  cases bk with
  | some c =>
    have ha : setDNS b cfg ⟨t, some c⟩ = (⟨some (renderText cfg), some c⟩, true) := by
      simp [setDNS, hcfg, fsRead_backup, fsWrite, hw resolvPath, fsSet_resolv]
    have ha' : setDNS directFS cfg ⟨t, some c⟩ = (⟨some (renderText cfg), some c⟩, true) := by
      simp [setDNS, hcfg, fsRead_backup, fsWrite, fsSet_resolv,
        show directFS.writeFails resolvPath = false from rfl]
    have hc : restoreOrRemove b ⟨some (renderText cfg), some c⟩ = (⟨some c, none⟩, true) :=
      restore_backup_run b _ c (hw resolvPath) (hrm backupPath)
    have hc' : restoreOrRemove directFS ⟨some (renderText cfg), some c⟩ = (⟨some c, none⟩, true) :=
      restore_backup_run directFS _ c rfl rfl
    rw [ha, ha']
    exact ⟨rfl, by rw [show closeDirect b _ = _ from hc], rfl,
      by rw [show closeDirect directFS _ = _ from hc'],
      by rw [show closeDirect b _ = _ from hc, show closeDirect directFS _ = _ from hc']⟩
  | none =>
    cases t with
    | none =>
      have hbc : backupCreate b ⟨none, none⟩ = (⟨none, none⟩, true) := by
        simp [backupCreate, fsRead_resolv]
      have hbc' : backupCreate directFS ⟨none, none⟩ = (⟨none, none⟩, true) := by
        simp [backupCreate, fsRead_resolv]
      have ha : setDNS b cfg ⟨none, none⟩ = (⟨some (renderText cfg), none⟩, true) := by
        simp [setDNS, hcfg, fsRead_backup, hbc, fsWrite, hw resolvPath, fsSet_resolv]
      have ha' : setDNS directFS cfg ⟨none, none⟩ = (⟨some (renderText cfg), none⟩, true) := by
        simp [setDNS, hcfg, fsRead_backup, hbc', fsWrite, fsSet_resolv,
          show directFS.writeFails resolvPath = false from rfl]
      have hc : restoreOrRemove b ⟨some (renderText cfg), none⟩ = (⟨none, none⟩, true) := by
        simp [restoreOrRemove, fsRead_backup, fsRead_resolv, owned_renderText,
          fsRemove, hrm resolvPath, fsSet_resolv]
      have hc' : restoreOrRemove directFS ⟨some (renderText cfg), none⟩ = (⟨none, none⟩, true) := by
        simp [restoreOrRemove, fsRead_backup, fsRead_resolv, owned_renderText,
          fsRemove, fsSet_resolv, show directFS.removeFails resolvPath = false from rfl]
      rw [ha, ha']
      exact ⟨rfl, by rw [show closeDirect b _ = _ from hc], rfl,
        by rw [show closeDirect directFS _ = _ from hc'],
        by rw [show closeDirect b _ = _ from hc, show closeDirect directFS _ = _ from hc']⟩
    | some orig =>
      have hbc : backupCreate b ⟨some orig, none⟩ = (⟨none, some orig⟩, true) := by
        simp [backupCreate, fsRename, fsRead_resolv, hrn resolvPath backupPath, fsWrite,
          hw backupPath, fsRemove, hrm resolvPath, fsSet_resolv, fsSet_backup]
      have hbc' : backupCreate directFS ⟨some orig, none⟩ = (⟨none, some orig⟩, true) := by
        simp [backupCreate, fsRename, fsRead_resolv, directFS, fsSet_resolv, fsSet_backup]
      have ha : setDNS b cfg ⟨some orig, none⟩ = (⟨some (renderText cfg), some orig⟩, true) := by
        simp [setDNS, hcfg, fsRead_backup, hbc, fsWrite, hw resolvPath, fsSet_resolv]
      have ha' : setDNS directFS cfg ⟨some orig, none⟩ =
          (⟨some (renderText cfg), some orig⟩, true) := by
        simp [setDNS, hcfg, fsRead_backup, hbc', fsWrite, fsSet_resolv,
          show directFS.writeFails resolvPath = false from rfl]
      have hc : restoreOrRemove b ⟨some (renderText cfg), some orig⟩ =
          (⟨some orig, none⟩, true) :=
        restore_backup_run b _ orig (hw resolvPath) (hrm backupPath)
      have hc' : restoreOrRemove directFS ⟨some (renderText cfg), some orig⟩ =
          (⟨some orig, none⟩, true) :=
        restore_backup_run directFS _ orig rfl rfl
      rw [ha, ha']
      exact ⟨rfl, by rw [show closeDirect b _ = _ from hc], rfl,
        by rw [show closeDirect directFS _ = _ from hc'],
        by rw [show closeDirect b _ = _ from hc, show closeDirect directFS _ = _ from hc']⟩

theorem claim4_witness :
    (setDNS allRenameFailFS scenarioCfg ⟨some origContents, none⟩).2 = true ∧
    (closeDirect allRenameFailFS (setDNS allRenameFailFS scenarioCfg ⟨some origContents, none⟩).1).2 = true ∧
    (setDNS directFS scenarioCfg ⟨some origContents, none⟩).2 = true ∧
    (closeDirect directFS (setDNS directFS scenarioCfg ⟨some origContents, none⟩).1).2 = true ∧
    (closeDirect allRenameFailFS (setDNS allRenameFailFS scenarioCfg ⟨some origContents, none⟩).1).1 =
      (closeDirect directFS (setDNS directFS scenarioCfg ⟨some origContents, none⟩).1).1 :=
  claim4_fallback_equivalence allRenameFailFS scenarioCfg ⟨some origContents, none⟩
    (fun _ _ => rfl) (fun _ => rfl) (fun _ => rfl) (by decide)

/-- C5: For a double whose `Remove` fails for the target path while `Rename`
always fails (and writes succeed), a full Apply-then-Close cycle from a
pre-takeover state still completes with no error returned from either call,
and afterwards the target file holds the original pre-takeover content:
remove failures on a file about to be superseded or already logically gone
are tolerated, never propagated. -/
theorem claim5_remove_failure_tolerance (b : FSBehavior) (cfg : OSConfig) (orig : Str)
    (hrn : ∀ o n, b.renameFails o n = true)
    (hrmT : b.removeFails resolvPath = true)
    (hw : ∀ p, b.writeFails p = false)
    (hcfg : cfg.isZero = false) :
    (setDNS b cfg ⟨some orig, none⟩).2 = true ∧
    (closeDirect b (setDNS b cfg ⟨some orig, none⟩).1).2 = true ∧
    (closeDirect b (setDNS b cfg ⟨some orig, none⟩).1).1.target = some orig := by
  have hbc : backupCreate b ⟨some orig, none⟩ = (⟨some orig, some orig⟩, true) := by
    simp [backupCreate, fsRename, fsRead_resolv, hrn resolvPath backupPath, fsWrite,
      hw backupPath, fsRemove, hrmT, fsSet_resolv, fsSet_backup]
  have ha : setDNS b cfg ⟨some orig, none⟩ = (⟨some (renderText cfg), some orig⟩, true) := by
    simp [setDNS, hcfg, fsRead_backup, hbc, fsWrite, hw resolvPath, fsSet_resolv]
  rw [ha]
  cases hrmB : b.removeFails backupPath with
  | false =>
    have hc : restoreOrRemove b ⟨some (renderText cfg), some orig⟩ =
        (⟨some orig, none⟩, true) :=
      restore_backup_run b _ orig (hw resolvPath) hrmB
    exact ⟨rfl, by rw [show closeDirect b _ = _ from hc],
      by rw [show closeDirect b _ = _ from hc]⟩
  | true =>
    have hc : restoreOrRemove b ⟨some (renderText cfg), some orig⟩ =
        (⟨some orig, some orig⟩, true) :=
      restore_backup_run_removeFail b _ orig (hw resolvPath) (hrn backupPath resolvPath) hrmB
    exact ⟨rfl, by rw [show closeDirect b _ = _ from hc],
      by rw [show closeDirect b _ = _ from hc]⟩

theorem claim5_witness :
    (setDNS brokenRemoveFS scenarioCfg ⟨some origContents, none⟩).2 = true ∧
    (closeDirect brokenRemoveFS (setDNS brokenRemoveFS scenarioCfg ⟨some origContents, none⟩).1).2 = true ∧
    (closeDirect brokenRemoveFS (setDNS brokenRemoveFS scenarioCfg ⟨some origContents, none⟩).1).1.target =
      some origContents :=
  claim5_remove_failure_tolerance brokenRemoveFS scenarioCfg origContents
    (fun _ _ => rfl) (by decide) (fun _ => rfl) (by decide)

/-- C8: The manager writes backups only at the single fixed backup path (so at
most one backup exists), and once a backup exists every Apply with a non-empty
config leaves it untouched holding its episode-initial contents, overwriting
only the target (when the target write succeeds the target holds exactly the
newly rendered config). -/
theorem claim8_backup_snapshotted_once (b : FSBehavior) (cfg : OSConfig) (s : FSState) (c : Str)
    (hb : s.backup = some c) (hz : cfg.isZero = false) :
    (setDNS b cfg s).1.backup = some c ∧
    (b.writeFails resolvPath = false →
      (setDNS b cfg s).1.target = some (renderText cfg)) := by
  cases hwf : b.writeFails resolvPath with
  | true => simp [setDNS, hz, fsRead_backup, hb, fsWrite, hwf]
  | false => simp [setDNS, hz, fsRead_backup, hb, fsWrite, hwf, fsSet_resolv]

theorem claim8_witness :
    (setDNS directFS scenarioCfg ⟨some wantContents, some origContents⟩).1.backup =
        some origContents ∧
      (directFS.writeFails resolvPath = false →
        (setDNS directFS scenarioCfg ⟨some wantContents, some origContents⟩).1.target =
          some (renderText scenarioCfg)) :=
  claim8_backup_snapshotted_once directFS scenarioCfg ⟨some wantContents, some origContents⟩
    origContents rfl (by decide)

/-- C6: the parser behaves exactly as specified on each concrete input:
`nameserver 192.168.0.100 # comment` parses to the single nameserver (an
inline `#` comment, even with no preceding space as in
`nameserver 192.168.0.100#`, is discarded); `nameserver #192.168.0.100`,
`nameserver`, and `nameserver192.168.0.100` each return a parse error;
`# nameserver 192.168.0.100` parses to an empty config; `search tailsacle.com`
parses to the single search domain in canonical form `tailsacle.com.`;
`searchtailsacle.com` and `search` each return a parse error. -/
theorem claim6_parser_concrete_cases :
    readResolv (strOf "nameserver 192.168.0.100 # comment") =
        .ok { nameservers := [strOf "192.168.0.100"] } ∧
      readResolv (strOf "nameserver 192.168.0.100#") =
        .ok { nameservers := [strOf "192.168.0.100"] } ∧
      isErr (readResolv (strOf "nameserver #192.168.0.100")) = true ∧
      isErr (readResolv (strOf "nameserver")) = true ∧
      isErr (readResolv (strOf "nameserver192.168.0.100")) = true ∧
      readResolv (strOf "# nameserver 192.168.0.100") = .ok {} ∧
      readResolv (strOf "search tailsacle.com") =
        .ok { searchDomains := [strOf "tailsacle.com."] } ∧
      isErr (readResolv (strOf "searchtailsacle.com")) = true ∧
      isErr (readResolv (strOf "search")) = true := by decide

/-- C9: `loadLegacyPrefs` fails with the distinct `errAlreadyMigrated` error
exactly when the migration sentinel file exists; in that case it returns an
empty sentinel path and empty preferences without reading the legacy prefs
file (the result is insensitive to the prefs-load outcome), and a `Stat`
error other than not-exist is returned as-is, distinguishable from the
sentinel condition. -/
theorem claim9_already_migrated_sentinel (env : LegacyEnv) (dir : Str)
    (hdir : env.dirResult = .ok dir) :
    ((loadLegacyPrefs env).2.2 = some .alreadyMigrated ↔ env.statSentinel = .found) ∧
    (env.statSentinel = .found →
      loadLegacyPrefs env = ([], emptyPrefs, some .alreadyMigrated)) ∧
    (env.statSentinel = .found → ∀ lp,
      loadLegacyPrefs { env with loadPrefsResult := lp } = loadLegacyPrefs env) ∧
    (∀ e, env.statSentinel = .failure e → (loadLegacyPrefs env).2.2 = some (.io e)) := by
  obtain ⟨dr, ss, lp, ap⟩ := env
  simp only at hdir
  subst hdir
  cases ss with
  | found => simp [loadLegacyPrefs]
  | missing =>
    cases lp with
    | error e => simp [loadLegacyPrefs]
    | ok p => simp [loadLegacyPrefs]
  | failure e => simp [loadLegacyPrefs]

theorem claim9_witness :
    ((loadLegacyPrefs ⟨.ok (strOf "/home/u"), .found, .ok emptyPrefs, id⟩).2.2 =
        some .alreadyMigrated ↔
      (⟨.ok (strOf "/home/u"), .found, .ok emptyPrefs, id⟩ : LegacyEnv).statSentinel = .found) ∧
    ((⟨.ok (strOf "/home/u"), .found, .ok emptyPrefs, id⟩ : LegacyEnv).statSentinel = .found →
      loadLegacyPrefs ⟨.ok (strOf "/home/u"), .found, .ok emptyPrefs, id⟩ =
        ([], emptyPrefs, some .alreadyMigrated)) ∧
    ((⟨.ok (strOf "/home/u"), .found, .ok emptyPrefs, id⟩ : LegacyEnv).statSentinel = .found →
      ∀ lp, loadLegacyPrefs
          { (⟨.ok (strOf "/home/u"), .found, .ok emptyPrefs, id⟩ : LegacyEnv) with
              loadPrefsResult := lp } =
        loadLegacyPrefs ⟨.ok (strOf "/home/u"), .found, .ok emptyPrefs, id⟩) ∧
    (∀ e, (⟨.ok (strOf "/home/u"), .found, .ok emptyPrefs, id⟩ : LegacyEnv).statSentinel =
        .failure e →
      (loadLegacyPrefs ⟨.ok (strOf "/home/u"), .found, .ok emptyPrefs, id⟩).2.2 =
        some (.io e)) :=
  claim9_already_migrated_sentinel ⟨.ok (strOf "/home/u"), .found, .ok emptyPrefs, id⟩
    (strOf "/home/u") rfl

/-- C10: `completeMigration` can never report failure: it discards the error
from writing the empty sentinel file, returning only the resulting sentinel
state — when the write fails nothing is recorded even though the write did
produce an error, so a later `loadLegacyPrefs` (observing the resulting
sentinel state) runs the migration again instead of returning
`errAlreadyMigrated`; when the write succeeds the sentinel is recorded and a
later `loadLegacyPrefs` returns `errAlreadyMigrated`. -/
theorem claim10_complete_migration_discards_error (fails present : Bool)
    (env : LegacyEnv) (dir : Str)
    (hdir : env.dirResult = .ok dir)
    (hsent : env.statSentinel = statOf (completeMigration fails present)) :
    (fails = true → completeMigration fails present = present ∧
      (atomicWriteFile fails present).2 ≠ none) ∧
    (fails = false → completeMigration fails present = true) ∧
    (fails = true → present = false →
      (loadLegacyPrefs env).2.2 ≠ some LoadErr.alreadyMigrated) ∧
    (fails = false → (loadLegacyPrefs env).2.2 = some LoadErr.alreadyMigrated) := by
  obtain ⟨dr, ss, lp, ap⟩ := env
  simp only at hdir hsent
  subst hdir
  subst hsent
  cases fails with
  | false => simp [completeMigration, atomicWriteFile, statOf, loadLegacyPrefs]
  | true =>
    cases present with
    | true => simp [completeMigration, atomicWriteFile, statOf, loadLegacyPrefs]
    | false =>
      cases lp with
      | error e => simp [completeMigration, atomicWriteFile, statOf, loadLegacyPrefs]
      | ok p => simp [completeMigration, atomicWriteFile, statOf, loadLegacyPrefs]

theorem claim10_witness :
    ((true : Bool) = true → completeMigration true false = false ∧
      (atomicWriteFile true false).2 ≠ none) ∧
    ((true : Bool) = false → completeMigration true false = true) ∧
    ((true : Bool) = true → (false : Bool) = false →
      (loadLegacyPrefs ⟨.ok (strOf "/home/u"), statOf (completeMigration true false),
          .ok emptyPrefs, id⟩).2.2 ≠ some LoadErr.alreadyMigrated) ∧
    ((true : Bool) = false →
      (loadLegacyPrefs ⟨.ok (strOf "/home/u"), statOf (completeMigration true false),
          .ok emptyPrefs, id⟩).2.2 = some LoadErr.alreadyMigrated) :=
  claim10_complete_migration_discards_error true false
    ⟨.ok (strOf "/home/u"), statOf (completeMigration true false), .ok emptyPrefs, id⟩
    (strOf "/home/u") rfl rfl

lemma mem_of_getLast?_eq (l : Str) (a : Char) (h : l.getLast? = some a) : a ∈ l := by
  rcases List.mem_getLast?_eq_getLast (Option.mem_def.mpr h) with ⟨hne, rfl⟩
  exact List.getLast_mem hne

lemma validToken_ne_nil (a : Str) (h : validToken a = true) : a ≠ [] := by
  simp only [validToken, Bool.and_eq_true, Bool.not_eq_true'] at h
  simpa [List.isEmpty_iff] using h.1

lemma validToken_no_space (a : Str) (h : validToken a = true) :
    ∀ c ∈ a, isSpaceChar c = false := by
  simp only [validToken, Bool.and_eq_true, List.all_eq_true, isTokChar] at h
  intro c hc
  have := h.2 c hc
  simp only [Bool.and_eq_true, Bool.not_eq_true'] at this
  exact this.1

lemma validToken_no_hash (a : Str) (h : validToken a = true) : ∀ c ∈ a, c ≠ '#' := by
  simp only [validToken, Bool.and_eq_true, List.all_eq_true, isTokChar] at h
  intro c hc
  have := h.2 c hc
  simp only [Bool.and_eq_true, Bool.not_eq_true'] at this
  simpa using this.2

lemma validToken_no_newline (a : Str) (h : validToken a = true) : '\n' ∉ a := by
  intro hmem
  have := validToken_no_space a h '\n' hmem
  simp [isSpaceChar] at this

lemma validToken_no_blank (a : Str) (h : validToken a = true) : ' ' ∉ a := by
  intro hmem
  have := validToken_no_space a h ' ' hmem
  simp [isSpaceChar] at this

lemma splitAux_no_sep (sep : Char) (l : Str) (h : sep ∉ l) : splitAux sep l = (l, []) := by
  induction l with
  | nil => rfl
  | cons c cs ih =>
    have hc : ¬(c = sep) := fun he => h (he ▸ List.mem_cons_self c cs)
    have ih' := ih (fun hm => h (List.mem_cons_of_mem c hm))
    simp [splitAux, ih', hc]

lemma splitAux_append_sep (sep : Char) (l rest : Str) (h : sep ∉ l) :
    splitAux sep (l ++ sep :: rest) = (l, (splitAux sep rest).1 :: (splitAux sep rest).2) := by
  induction l with
  | nil => simp [splitAux]
  | cons c cs ih =>
    have hc : ¬(c = sep) := fun he => h (he ▸ List.mem_cons_self c cs)
    have ih' := ih (fun hm => h (List.mem_cons_of_mem c hm))
    simp_all [splitAux]

/-- Splitting on newlines inverts joining newline-terminated lines, leaving a
final empty field for the trailing newline. -/
lemma splitOnChar_newline_flatten (ls : List Str) (h : ∀ l ∈ ls, '\n' ∉ l) :
    splitOnChar '\n' ((ls.map (fun l => l ++ ['\n'])).flatten) = ls ++ [[]] := by
  induction ls with
  | nil => rfl
  | cons l ls ih =>
    have hl : '\n' ∉ l := h l (List.mem_cons_self l ls)
    have ih' := ih (fun x hx => h x (List.mem_cons_of_mem l hx))
    have hshape : ((l :: ls).map (fun l => l ++ ['\n'])).flatten =
        l ++ '\n' :: ((ls.map (fun l => l ++ ['\n'])).flatten) := by
      simp
    rw [splitOnChar, hshape, splitAux_append_sep '\n' l _ hl]
    simp only [splitOnChar] at ih'
    simp only [List.cons_append]
    rw [← ih']

lemma dropWhile_eq_self_of_head (p : Char → Bool) (l : Str)
    (h : ∀ c, l.head? = some c → p c = false) : l.dropWhile p = l := by
  cases l with
  | nil => rfl
  | cons c cs => simp [List.dropWhile_cons, h c rfl]

lemma trim_eq_self (l : Str)
    (h1 : ∀ c, l.head? = some c → isSpaceChar c = false)
    (h2 : ∀ c, l.getLast? = some c → isSpaceChar c = false) : trim l = l := by
  unfold trim
  rw [dropWhile_eq_self_of_head isSpaceChar l h1]
  rw [dropWhile_eq_self_of_head isSpaceChar l.reverse
    (fun c hc => h2 c (by rwa [List.head?_reverse] at hc))]
  exact List.reverse_reverse l

lemma takeWhile_eq_self_of_all (p : Char → Bool) (l : Str) (h : ∀ c ∈ l, p c = true) :
    l.takeWhile p = l := by
  induction l with
  | nil => rfl
  | cons c cs ih =>
    rw [List.takeWhile_cons, h c (List.mem_cons_self c cs),
      ih (fun x hx => h x (List.mem_cons_of_mem c hx))]
    simp

lemma stripComment_eq_self (l : Str) (h : ∀ c ∈ l, c ≠ '#') : stripComment l = l :=
  takeWhile_eq_self_of_all _ l (fun c hc => by simpa using h c hc)

lemma mem_of_head?_eq (l : Str) (c : Char) (h : l.head? = some c) : c ∈ l := by
  cases l with
  | nil => cases h
  | cons x xs =>
    injection h with h
    rw [← h]
    exact List.mem_cons_self x xs

lemma parseLine_skip (acc : OSConfig) (line : Str)
    (h : (trim (stripComment line)).isEmpty = true) : parseLine acc line = .ok acc := by
  simp [parseLine, h]

lemma parseLine_ns (acc : OSConfig) (a : Str) (h : validToken a = true) :
    parseLine acc (nsLine a) = .ok { acc with nameservers := acc.nameservers ++ [a] } := by
  have hsc : stripComment (nsLine a) = nsLine a := by
    apply stripComment_eq_self
    intro c hc
    rcases List.mem_append.mp hc with hx | hx
    · exact (by decide : ∀ c ∈ strOf "nameserver ", c ≠ '#') c hx
    · exact validToken_no_hash a h c hx
  have htr : trim (nsLine a) = nsLine a := by
    apply trim_eq_self
    · intro c hc
      have hh : (nsLine a).head? = some 'n' := rfl
      rw [hh] at hc
      injection hc with hc
      rw [← hc]
      decide
    · intro c hc
      rw [nsLine, List.getLast?_append_of_ne_nil (strOf "nameserver ") (validToken_ne_nil a h)] at hc
      exact validToken_no_space a h c (mem_of_getLast?_eq a c hc)
  have hshape : nsLine a = nameserverKw ++ (' ' :: a) := rfl
  have hvalue : trim (' ' :: a) = a := by
    unfold trim
    rw [show List.dropWhile isSpaceChar (' ' :: a) = List.dropWhile isSpaceChar a from by
      simp [List.dropWhile_cons, isSpaceChar]]
    rw [dropWhile_eq_self_of_head isSpaceChar a
      (fun c hc => validToken_no_space a h c (mem_of_head?_eq a c hc))]
    rw [dropWhile_eq_self_of_head isSpaceChar a.reverse
      (fun c hc =>
        validToken_no_space a h c
          (mem_of_getLast?_eq a c (by rwa [List.head?_reverse] at hc)))]
    exact List.reverse_reverse a
  have hpa : parseAddr a = some a := by simp [parseAddr, h]
  simp only [parseLine]
  rw [hsc, htr, hshape]
  rw [show ((nameserverKw ++ (' ' :: a)).isEmpty = false) from rfl]
  rw [if_neg Bool.false_ne_true]
  rw [beginsWith_append_self nameserverKw (' ' :: a), if_pos rfl]
  rw [List.drop_left nameserverKw (' ' :: a), hvalue]
  rw [if_neg (by simp : ¬(a.length = (' ' :: a).length))]
  rw [hpa]

lemma woDot_of_validFQDN (d : Str) (h : validFQDN d = true) :
    withoutTrailingDot d = d.dropLast ∧ validToken d.dropLast = true ∧
      d.getLast? = some '.' ∧ ¬(d.dropLast.getLast? = some '.') := by
  simp only [validFQDN, Bool.and_eq_true, decide_eq_true_eq, Bool.not_eq_true',
    decide_eq_false_iff_not] at h
  exact ⟨by simp [withoutTrailingDot, h.1.1], h.1.2, h.1.1, h.2⟩

lemma toFQDN_woDot (d : Str) (h : validFQDN d = true) :
    toFQDN (withoutTrailingDot d) = some d := by
  obtain ⟨hwd, hvt, hlast, hnd⟩ := woDot_of_validFQDN d h
  rw [hwd]
  rw [toFQDN, if_pos hvt, if_neg hnd]
  have hne : d ≠ [] := by
    intro he
    rw [he] at hlast
    cases hlast
  have hg : d.getLast hne = '.' := by
    have h2 := List.getLast?_eq_getLast_of_ne_nil hne
    rw [hlast] at h2
    exact (Option.some.inj h2).symm
  rw [← hg]
  rw [List.dropLast_append_getLast hne]

lemma mapM_toFQDN_woDot (ds : List Str) (h : ∀ d ∈ ds, validFQDN d = true) :
    (ds.map withoutTrailingDot).mapM toFQDN = some ds := by
  induction ds with
  | nil => rfl
  | cons d ds ih =>
    simp only [List.map_cons, List.mapM_cons]
    rw [toFQDN_woDot d (h d (List.mem_cons_self d ds))]
    rw [ih (fun x hx => h x (List.mem_cons_of_mem d hx))]
    rfl

lemma mem_words_elim (ds : List Str) (c : Char)
    (hc : c ∈ (ds.map (fun x => ' ' :: withoutTrailingDot x)).flatten) :
    c = ' ' ∨ ∃ x ∈ ds, c ∈ withoutTrailingDot x := by
  rcases List.mem_flatten.mp hc with ⟨l, hl, hcl⟩
  rcases List.mem_map.mp hl with ⟨x, hx, rfl⟩
  rcases List.mem_cons.mp hcl with h | h
  · exact Or.inl h
  · exact Or.inr ⟨x, hx, h⟩

lemma words_no_hash (ds : List Str) (hv : ∀ x ∈ ds, validFQDN x = true) (c : Char)
    (hc : c ∈ (ds.map (fun x => ' ' :: withoutTrailingDot x)).flatten) : c ≠ '#' := by
  rcases mem_words_elim ds c hc with rfl | ⟨x, hx, hcx⟩
  · decide
  · obtain ⟨hwd, hvt, -, -⟩ := woDot_of_validFQDN x (hv x hx)
    rw [hwd] at hcx
    exact validToken_no_hash _ hvt c hcx

lemma words_no_newline (ds : List Str) (hv : ∀ x ∈ ds, validFQDN x = true) (c : Char)
    (hc : c ∈ (ds.map (fun x => ' ' :: withoutTrailingDot x)).flatten) : c ≠ '\n' := by
  rcases mem_words_elim ds c hc with rfl | ⟨x, hx, hcx⟩
  · decide
  · obtain ⟨hwd, hvt, -, -⟩ := woDot_of_validFQDN x (hv x hx)
    rw [hwd] at hcx
    intro he
    have := validToken_no_space _ hvt c hcx
    rw [he] at this
    simp [isSpaceChar] at this

lemma getLast_words_nonspace (ds : List Str) (hne : ds ≠ [])
    (hv : ∀ x ∈ ds, validFQDN x = true) :
    ∀ c, ((ds.map (fun x => ' ' :: withoutTrailingDot x)).flatten).getLast? = some c →
      isSpaceChar c = false := by
  induction ds with
  | nil => exact absurd rfl hne
  | cons d ds ih =>
    intro c hc
    obtain ⟨hwd, hvt, -, -⟩ := woDot_of_validFQDN d (hv d (List.mem_cons_self d ds))
    by_cases hds : ds = []
    · subst hds
      simp only [List.map_cons, List.map_nil, List.flatten_cons, List.flatten_nil,
        List.append_nil] at hc
      have hne' : withoutTrailingDot d ≠ [] := by
        rw [hwd]
        exact validToken_ne_nil _ hvt
      rw [show (' ' :: withoutTrailingDot d : Str) = [' '] ++ withoutTrailingDot d from rfl,
        List.getLast?_append_of_ne_nil [' '] hne'] at hc
      refine validToken_no_space _ hvt c ?_
      rw [← hwd]
      exact mem_of_getLast?_eq _ c hc
    · have hJne : ((ds.map (fun x => ' ' :: withoutTrailingDot x)).flatten) ≠ [] := by
        cases ds with
        | nil => exact absurd rfl hds
        | cons e es => simp
      simp only [List.map_cons, List.flatten_cons] at hc
      rw [List.getLast?_append_of_ne_nil _ hJne] at hc
      exact ih hds (fun x hx => hv x (List.mem_cons_of_mem d hx)) c hc

lemma splitOnChar_words (b : Str) (ds : List Str) (hb : ' ' ∉ b)
    (h : ∀ d ∈ ds, ' ' ∉ withoutTrailingDot d) :
    splitOnChar ' ' (b ++ (ds.map (fun d => ' ' :: withoutTrailingDot d)).flatten) =
      b :: ds.map withoutTrailingDot := by
  induction ds generalizing b with
  | nil =>
    simp only [List.map_nil, List.flatten_nil, List.append_nil]
    rw [splitOnChar, splitAux_no_sep ' ' b hb]
  | cons d ds ih =>
    have hshape : b ++ ((d :: ds).map (fun d => ' ' :: withoutTrailingDot d)).flatten =
        b ++ ' ' :: (withoutTrailingDot d ++ (ds.map (fun d => ' ' :: withoutTrailingDot d)).flatten) := by
      simp
    rw [hshape, splitOnChar, splitAux_append_sep ' ' b _ hb]
    have ih' := ih (withoutTrailingDot d) (h d (List.mem_cons_self d ds))
      (fun x hx => h x (List.mem_cons_of_mem d hx))
    simp only [splitOnChar] at ih'
    simp only [List.map_cons]
    rw [← ih']

lemma trim_spaceJoin (d : Str) (ds : List Str)
    (hv : ∀ x ∈ d :: ds, validFQDN x = true) :
    trim (((d :: ds).map (fun x => ' ' :: withoutTrailingDot x)).flatten) =
      withoutTrailingDot d ++ ((ds.map (fun x => ' ' :: withoutTrailingDot x)).flatten) := by
  obtain ⟨hwd, hvt, -, -⟩ := woDot_of_validFQDN d (hv d (List.mem_cons_self d ds))
  have hshape : (((d :: ds).map (fun x => ' ' :: withoutTrailingDot x)).flatten : Str) =
      ' ' :: (withoutTrailingDot d ++ (ds.map (fun x => ' ' :: withoutTrailingDot x)).flatten) := by
    simp
  rw [hshape]
  have hY : ∀ c, (withoutTrailingDot d ++
      (ds.map (fun x => ' ' :: withoutTrailingDot x)).flatten).head? = some c →
      isSpaceChar c = false := by
    intro c hc
    have hne' : withoutTrailingDot d ≠ [] := by
      rw [hwd]
      exact validToken_ne_nil _ hvt
    rw [List.head?_append_of_ne_nil _ hne'] at hc
    exact validToken_no_space _ (hwd ▸ hvt) c (mem_of_head?_eq _ c hc)
  have hYlast : ∀ c, (withoutTrailingDot d ++
      (ds.map (fun x => ' ' :: withoutTrailingDot x)).flatten).getLast? = some c →
      isSpaceChar c = false := by
    intro c hc
    by_cases hds : ds = []
    · subst hds
      simp only [List.map_nil, List.flatten_nil, List.append_nil] at hc
      exact validToken_no_space _ (hwd ▸ hvt) c (mem_of_getLast?_eq _ c hc)
    · have hJne : ((ds.map (fun x => ' ' :: withoutTrailingDot x)).flatten) ≠ [] := by
        cases ds with
        | nil => exact absurd rfl hds
        | cons e es => simp
      rw [List.getLast?_append_of_ne_nil _ hJne] at hc
      exact getLast_words_nonspace ds hds (fun x hx => hv x (List.mem_cons_of_mem d hx)) c hc
  unfold trim
  rw [show List.dropWhile isSpaceChar (' ' :: (withoutTrailingDot d ++
      (ds.map (fun x => ' ' :: withoutTrailingDot x)).flatten)) =
      List.dropWhile isSpaceChar (withoutTrailingDot d ++
      (ds.map (fun x => ' ' :: withoutTrailingDot x)).flatten) from by
    simp [List.dropWhile_cons, isSpaceChar]]
  rw [dropWhile_eq_self_of_head isSpaceChar _ hY]
  rw [dropWhile_eq_self_of_head isSpaceChar _
    (fun c hc => hYlast c (by rwa [List.head?_reverse] at hc))]
  exact List.reverse_reverse _

lemma parseLine_search (acc : OSConfig) (d : Str) (ds : List Str)
    (hv : ∀ x ∈ d :: ds, validFQDN x = true) :
    parseLine acc (searchLine (d :: ds)) =
      .ok { acc with searchDomains := acc.searchDomains ++ (d :: ds) } := by
  obtain ⟨hwd, hvt, -, -⟩ := woDot_of_validFQDN d (hv d (List.mem_cons_self d ds))
  have hJne' : (((d :: ds).map (fun x => ' ' :: withoutTrailingDot x)).flatten : Str) ≠ [] := by
    simp
  have hsc : stripComment (searchLine (d :: ds)) = searchLine (d :: ds) := by
    apply stripComment_eq_self
    intro c hc
    rcases List.mem_append.mp hc with hx | hx
    · exact (by decide : ∀ c ∈ searchKw, c ≠ '#') c hx
    · exact words_no_hash (d :: ds) hv c hx
  have htr : trim (searchLine (d :: ds)) = searchLine (d :: ds) := by
    apply trim_eq_self
    · intro c hc
      have hh : (searchLine (d :: ds)).head? = some 's' := rfl
      rw [hh] at hc
      injection hc with hc
      rw [← hc]
      decide
    · intro c hc
      rw [searchLine, List.getLast?_append_of_ne_nil searchKw hJne'] at hc
      exact getLast_words_nonspace (d :: ds) (List.cons_ne_nil d ds) hv c hc
  have hnskw : beginsWith nameserverKw (searchLine (d :: ds)) = false := by
    rw [show searchLine (d :: ds) = 's' :: (strOf "earch" ++
      ((d :: ds).map (fun x => ' ' :: withoutTrailingDot x)).flatten) from rfl]
    rw [show nameserverKw = 'n' :: strOf "ameserver" from rfl]
    simp [beginsWith, show (('n' : Char) == 's') = false from by decide]
  have hskw : beginsWith searchKw (searchLine (d :: ds)) = true := by
    rw [show searchLine (d :: ds) = searchKw ++
      ((d :: ds).map (fun x => ' ' :: withoutTrailingDot x)).flatten from rfl]
    exact beginsWith_append_self searchKw _
  have hvalue := trim_spaceJoin d ds hv
  have hb : ' ' ∉ withoutTrailingDot d := by
    rw [hwd]
    exact validToken_no_blank _ hvt
  have hball : ∀ x ∈ ds, ' ' ∉ withoutTrailingDot x := by
    intro x hx
    obtain ⟨hwdx, hvtx, -, -⟩ := woDot_of_validFQDN x (hv x (List.mem_cons_of_mem d hx))
    rw [hwdx]
    exact validToken_no_blank _ hvtx
  have hsplit := splitOnChar_words (withoutTrailingDot d) ds hb hball
  have hJshape : (((d :: ds).map (fun x => ' ' :: withoutTrailingDot x)).flatten : Str) =
      ' ' :: (withoutTrailingDot d ++ (ds.map (fun x => ' ' :: withoutTrailingDot x)).flatten) := by
    simp
  simp only [parseLine]
  rw [hsc, htr]
  rw [show (searchLine (d :: ds)).isEmpty = false from rfl, if_neg Bool.false_ne_true]
  rw [hnskw, if_neg Bool.false_ne_true]
  rw [hskw, if_pos rfl]
  rw [show searchLine (d :: ds) = searchKw ++
    ((d :: ds).map (fun x => ' ' :: withoutTrailingDot x)).flatten from rfl]
  rw [List.drop_left searchKw _]
  rw [hvalue]
  rw [hJshape]
  rw [if_neg (by simp : ¬((withoutTrailingDot d ++
    (ds.map (fun x => ' ' :: withoutTrailingDot x)).flatten).length =
    (' ' :: (withoutTrailingDot d ++
      (ds.map (fun x => ' ' :: withoutTrailingDot x)).flatten) : Str).length))]
  rw [hsplit]
  rw [← List.map_cons]
  rw [mapM_toFQDN_woDot (d :: ds) hv]

lemma parseLines_cons_ok (acc acc2 : OSConfig) (l : Str) (ls : List Str)
    (h : parseLine acc l = .ok acc2) : parseLines acc (l :: ls) = parseLines acc2 ls := by
  simp [parseLines, h]

lemma parseLines_nsBlock (ns : List Str) (acc : OSConfig) (rest : List Str)
    (h : ∀ a ∈ ns, validToken a = true) :
    parseLines acc (ns.map nsLine ++ rest) =
      parseLines { acc with nameservers := acc.nameservers ++ ns } rest := by
  induction ns generalizing acc with
  | nil => simp
  | cons a ns ih =>
    simp only [List.map_cons, List.cons_append]
    rw [parseLines_cons_ok _ _ _ _ (parseLine_ns acc a (h a (List.mem_cons_self a ns)))]
    rw [ih _ (fun x hx => h x (List.mem_cons_of_mem a hx))]
    simp [List.append_assoc]

lemma renderLines_no_newline (cfg : OSConfig)
    (hvns : ∀ a ∈ cfg.nameservers, validToken a = true)
    (hvsd : ∀ d ∈ cfg.searchDomains, validFQDN d = true) :
    ∀ l ∈ renderLines cfg, '\n' ∉ l := by
  intro l hl
  rcases List.mem_append.mp hl with hx | hx
  · rcases List.mem_append.mp hx with hy | hy
    · have : l = headerLine1 ∨ l = headerLine2 ∨ l = headerLine3 ∨ l = [] := by
        simpa using hy
      rcases this with rfl | rfl | rfl | rfl
      · decide
      · decide
      · decide
      · simp
    · rcases List.mem_map.mp hy with ⟨a, ha, rfl⟩
      intro hc
      rcases List.mem_append.mp hc with hz | hz
      · exact (by decide : ('\n' : Char) ∉ strOf "nameserver ") hz
      · exact validToken_no_newline a (hvns a ha) hz
  · by_cases hsd : cfg.searchDomains.isEmpty = true
    · rw [if_pos hsd] at hx
      cases hx
    · rw [if_neg hsd] at hx
      have : l = searchLine cfg.searchDomains := by simpa using hx
      subst this
      intro hc
      rcases List.mem_append.mp hc with hz | hz
      · exact (by decide : ('\n' : Char) ∉ searchKw) hz
      · exact words_no_newline cfg.searchDomains hvsd '\n' hz rfl

/-- C7: for every config with non-empty nameservers (validation of address
and domain text being out of scope: addresses are well-formed tokens, search
domains canonical FQDNs), parsing the rendered text of the config with
matchDomains cleared yields exactly the original nameservers and
searchDomains, in order, with each search domain restored to canonical
trailing-separator form, and an always-empty matchDomains. -/
theorem claim7_render_parse_roundtrip (cfg : OSConfig)
    (hns : cfg.nameservers ≠ [])
    (hvns : ∀ a ∈ cfg.nameservers, validToken a = true)
    (hvsd : ∀ d ∈ cfg.searchDomains, validFQDN d = true) :
    readResolv (renderText { cfg with matchDomains := [] }) =
      .ok { nameservers := cfg.nameservers, searchDomains := cfg.searchDomains,
            matchDomains := [] } := by
  obtain ⟨ns, sd, md⟩ := cfg
  simp only at hns hvns hvsd ⊢
  unfold readResolv renderText
  rw [splitOnChar_newline_flatten (renderLines ⟨ns, sd, []⟩)
    (renderLines_no_newline ⟨ns, sd, []⟩ hvns hvsd)]
  have hlist : renderLines ⟨ns, sd, []⟩ ++ [[]] =
      headerLine1 :: headerLine2 :: headerLine3 :: ([] : Str) ::
        (ns.map nsLine ++ ((if sd.isEmpty then [] else [searchLine sd]) ++ [[]])) := by
    simp [renderLines]
  rw [hlist]
  rw [parseLines_cons_ok _ _ _ _ (parseLine_skip _ headerLine1 (by decide))]
  rw [parseLines_cons_ok _ _ _ _ (parseLine_skip _ headerLine2 (by decide))]
  rw [parseLines_cons_ok _ _ _ _ (parseLine_skip _ headerLine3 (by decide))]
  rw [parseLines_cons_ok _ _ _ _ (parseLine_skip _ [] (by decide))]
  rw [parseLines_nsBlock ns {} _ hvns]
  cases sd with
  | nil =>
    simp only [List.isEmpty_nil, if_pos, List.nil_append]
    rw [parseLines_cons_ok _ _ _ _ (parseLine_skip _ [] (by decide))]
    simp [parseLines]
  | cons d ds =>
    simp only [List.isEmpty_cons, Bool.false_eq_true, if_false, List.cons_append,
      List.nil_append]
    rw [parseLines_cons_ok _ _ _ _ (parseLine_search _ d ds hvsd)]
    rw [parseLines_cons_ok _ _ _ _ (parseLine_skip _ [] (by decide))]
    simp [parseLines]

theorem claim7_witness :
    readResolv (renderText { scenarioCfg with matchDomains := [] }) =
      .ok { nameservers := scenarioCfg.nameservers,
            searchDomains := scenarioCfg.searchDomains, matchDomains := [] } :=
  claim7_render_parse_roundtrip scenarioCfg (by decide) (by decide) (by decide)
